import Mathlib

/-!
Verification of the kornia filter-kernel subsystem and package wiring.

The filter code itself (kornia/filters) is not among the provided sources;
only its test suite and the package init files are.  The kernel factory,
separable convolution and filter modules are therefore modelled from the
specification, as marked on each definition.  The package-level import and
export facts are translated directly from `kornia/__init__.py` and
`kornia/losses/__init__.py`.
-/

/-- Border handling modes for spatial padding, as enumerated by the spec:
reflect, replicate and zero. -/
inductive BorderMode
  | reflect
  | replicate
  | zero

/-- Modelled from the spec: the center index of an odd-sized window,
computed by integer floor division: `center = (size - 1) / 2`. -/
def kernelCenter (size : ℕ) : ℕ :=
  (size - 1) / 2

/-- Modelled from the spec: the unnormalized Gaussian coefficients
`exp (-(x - center)^2 / (2*sigma^2))` for `x` in `[0, size)`. -/
noncomputable def gaussian_coeffs (size : ℕ) (sigma : ℝ) : List ℝ :=
  (List.range size).map fun (x : ℕ) =>
    Real.exp (-(((x : ℝ) - (kernelCenter size : ℝ)) ^ 2) / (2 * sigma ^ 2))

/-- Modelled from the spec: `get_gaussian_kernel` (gaussianKernel1D).
Computes the unnormalized Gaussian coefficients and divides by their sum;
fails with `InvalidArgument` when the size is not a positive odd integer or
the sigma is not positive. -/
noncomputable def get_gaussian_kernel (size : ℕ) (sigma : ℝ) :
    Except String (List ℝ) :=
  if 0 < size ∧ size % 2 = 1 ∧ 0 < sigma then
    Except.ok ((gaussian_coeffs size sigma).map fun c =>
      c / (gaussian_coeffs size sigma).sum)
  else
    Except.error "InvalidArgument"

/-- Modelled from the spec: `get_gaussian_kernel2d` (gaussianKernel2D), the
outer product of two 1-D Gaussian kernels built independently per axis. -/
noncomputable def get_gaussian_kernel2d (ksize : ℕ × ℕ) (sigma : ℝ × ℝ) :
    Except String (List (List ℝ)) := do
  let kx ← get_gaussian_kernel ksize.1 sigma.1
  let ky ← get_gaussian_kernel ksize.2 sigma.2
  pure (kx.map fun a => ky.map fun b => a * b)

/-- Modelled from the spec: `get_laplacian_kernel` (laplacianKernel1D), the
one-dimensional second-derivative stencil: all ones with the center
coefficient set to `-(size - 1)`, so the total sum is 0. -/
def get_laplacian_kernel (size : ℕ) : Except String (List ℚ) :=
  if 0 < size ∧ size % 2 = 1 then
    Except.ok ((List.range size).map fun (x : ℕ) =>
      if x = kernelCenter size then 1 - (size : ℚ) else 1)
  else
    Except.error "InvalidArgument"

/-- Modelled from the spec: `get_laplacian_kernel2d` (laplacianKernel2D), an
all-ones square with the center coefficient set to `-(size*size - 1)`. -/
def get_laplacian_kernel2d (size : ℕ) : Except String (List (List ℚ)) :=
  if 0 < size ∧ size % 2 = 1 then
    Except.ok ((List.range size).map fun (i : ℕ) =>
      (List.range size).map fun (j : ℕ) =>
      if i = kernelCenter size ∧ j = kernelCenter size then
        1 - (size : ℚ) * (size : ℚ)
      else 1)
  else
    Except.error "InvalidArgument"

/-- A single spatial plane: a list of rows of real coefficients. -/
abbrev Image := List (List ℝ)

/-- A rank-4 batch: batch axis, then channel axis, then a spatial plane. -/
abbrev Batch := List (List Image)

/-- Modelled from the spec: resolve a possibly out-of-range spatial index
against an axis of extent `n` according to the border mode.  `none` means
the sampled value is synthesized as zero. -/
def borderIndex (mode : BorderMode) (n : ℕ) (i : ℤ) : Option ℕ :=
  match mode with
  | BorderMode.zero =>
      if 0 ≤ i ∧ i < (n : ℤ) then some i.toNat else none
  | BorderMode.replicate =>
      some (min i.toNat (n - 1))
  | BorderMode.reflect =>
      let r : ℤ :=
        if i < 0 then -i
        else if (n : ℤ) ≤ i then 2 * ((n : ℤ) - 1) - i
        else i
      some (min r.toNat (n - 1))

/-- Sample a row at a signed index, applying the border mode outside the
row's extent. -/
def sample1d (mode : BorderMode) (row : List ℝ) (i : ℤ) : ℝ :=
  match borderIndex mode row.length i with
  | some j => row.getD j 0
  | none => 0

/-- Modelled from the spec: 1-D convolution of a row with a kernel, with the
row virtually padded by `(kernelSize - 1) / 2` on each side, producing one
output entry per input entry. -/
def conv1d (mode : BorderMode) (k : List ℝ) (row : List ℝ) : List ℝ :=
  (List.range row.length).map fun (i : ℕ) =>
    ((List.range k.length).map fun (a : ℕ) =>
      k.getD a 0 *
        sample1d mode row ((i : ℤ) + (a : ℤ) - (kernelCenter k.length : ℤ))).sum

/-- Convolve every row of an image with a 1-D kernel (the width pass). -/
def convWidth (mode : BorderMode) (k : List ℝ) (img : Image) : Image :=
  img.map (conv1d mode k)

/-- The `j`-th column of an image, read through `getD`. -/
def imageColumn (img : Image) (j : ℕ) : List ℝ :=
  img.map fun row => row.getD j 0

/-- Convolve every column of an image with a 1-D kernel (the height pass). -/
def convHeight (mode : BorderMode) (k : List ℝ) (img : Image) : Image :=
  (List.range img.length).map fun (i : ℕ) =>
    (List.range (img.headD []).length).map fun (j : ℕ) =>
      ((List.range k.length).map fun (a : ℕ) =>
        k.getD a 0 *
          sample1d mode (imageColumn img j)
            ((i : ℤ) + (a : ℤ) - (kernelCenter k.length : ℤ))).sum

/-- The spatial height of a batch, read from its first image. -/
def imageHeight (b : Batch) : ℕ :=
  ((b.headD []).headD []).length

/-- The spatial width of a batch, read from the first row of its first
image. -/
def imageWidth (b : Batch) : ℕ :=
  (((b.headD []).headD []).headD []).length

/-- Modelled from the spec: `apply` of SeparableConvolution.  Pads each
spatial plane according to the border mode, convolves along the width axis
with `kx`, then along the height axis with `ky`; each channel is filtered
independently.  Fails with `InvalidArgument` when a kernel exceeds the
spatial dimensions of the batch. -/
def separable_conv2d (mode : BorderMode) (kx ky : List ℝ) (b : Batch) :
    Except String Batch :=
  if kx.length ≤ imageWidth b ∧ ky.length ≤ imageHeight b then
    Except.ok (b.map fun ch => ch.map fun img =>
      convHeight mode ky (convWidth mode kx img))
  else
    Except.error "InvalidArgument"

/-- Sample an image at a signed position, applying the border mode on both
axes. -/
def sample2d (mode : BorderMode) (img : Image) (i j : ℤ) : ℝ :=
  match borderIndex mode img.length i with
  | some a => sample1d mode (img.getD a []) j
  | none => 0

/-- Modelled from the spec: direct 2-D convolution of an image with a 2-D
kernel (the non-separable path, used by the Laplacian filter). -/
def filter2d (mode : BorderMode) (k : List (List ℝ)) (img : Image) : Image :=
  (List.range img.length).map fun (i : ℕ) =>
    (List.range (img.headD []).length).map fun (j : ℕ) =>
      ((List.range k.length).map fun (a : ℕ) =>
        ((List.range (k.headD []).length).map fun (b : ℕ) =>
          (k.getD a []).getD b 0 *
            sample2d mode img
              ((i : ℤ) + (a : ℤ) - (kernelCenter k.length : ℤ))
              ((j : ℤ) + (b : ℤ) - (kernelCenter (k.headD []).length : ℤ))).sum).sum

/-- Modelled from the spec: apply a single 2-D kernel directly to every
channel of a batch; fails with `InvalidArgument` when the kernel exceeds the
spatial dimensions. -/
def direct_conv2d (mode : BorderMode) (k : List (List ℝ)) (b : Batch) :
    Except String Batch :=
  if k.length ≤ imageHeight b ∧ (k.headD []).length ≤ imageWidth b then
    Except.ok (b.map fun ch => ch.map fun img => filter2d mode k img)
  else
    Except.error "InvalidArgument"

/-- Modelled from the spec: the functional `gaussian_blur` entry point,
which builds both 1-D kernels on every call and delegates to the separable
convolution. -/
noncomputable def gaussian_blur (b : Batch) (ksize : ℕ × ℕ) (sigma : ℝ × ℝ) :
    Except String Batch := do
  let kx ← get_gaussian_kernel ksize.1 sigma.1
  let ky ← get_gaussian_kernel ksize.2 sigma.2
  separable_conv2d BorderMode.reflect kx ky b

/-- Modelled from the spec: the GaussianBlur module owns its two 1-D
kernels, built once at construction. -/
structure GaussianBlur where
  kernel_x : List ℝ
  kernel_y : List ℝ

/-- Modelled from the spec: constructing a GaussianBlur module validates the
parameters and builds both kernels once. -/
noncomputable def GaussianBlur.create (ksize : ℕ × ℕ) (sigma : ℝ × ℝ) :
    Except String GaussianBlur := do
  let kx ← get_gaussian_kernel ksize.1 sigma.1
  let ky ← get_gaussian_kernel ksize.2 sigma.2
  pure ⟨kx, ky⟩

/-- Modelled from the spec: a constructed GaussianBlur module applies its
stored kernels to a batch with no further kernel computation. -/
def GaussianBlur.forward (g : GaussianBlur) (b : Batch) : Except String Batch :=
  separable_conv2d BorderMode.reflect g.kernel_x g.kernel_y b

/-- Modelled from the spec: an ahead-of-time traced invocation of
`gaussian_blur` with fixed kernel parameters: the kernels are computed once
at trace time and baked into a fixed function of the input batch. -/
noncomputable def gaussian_blur_scripted (ksize : ℕ × ℕ) (sigma : ℝ × ℝ) :
    Batch → Except String Batch :=
  match get_gaussian_kernel ksize.1 sigma.1, get_gaussian_kernel ksize.2 sigma.2 with
  | Except.ok kx, Except.ok ky =>
      fun b => separable_conv2d BorderMode.reflect kx ky b
  | Except.error e, _ => fun _ => Except.error e
  | _, Except.error e => fun _ => Except.error e

/-- Cast a rational 2-D kernel to a real one for use in convolution. -/
def ratCastKernel2d (k : List (List ℚ)) : List (List ℝ) :=
  k.map (List.map fun q => ((q : ℚ) : ℝ))

/-- Modelled from the spec: the functional `laplacian` entry point, which
builds the 2-D Laplacian kernel and applies it directly. -/
def laplacian (b : Batch) (size : ℕ) : Except String Batch := do
  let k ← get_laplacian_kernel2d size
  direct_conv2d BorderMode.reflect (ratCastKernel2d k) b

/-- Modelled from the spec: the Laplacian module owns its 2-D kernel, built
once at construction. -/
structure Laplacian where
  kernel : List (List ℝ)

/-- Modelled from the spec: constructing a Laplacian module validates the
size and builds the kernel once. -/
def Laplacian.create (size : ℕ) : Except String Laplacian := do
  let k ← get_laplacian_kernel2d size
  pure ⟨ratCastKernel2d k⟩

/-- Modelled from the spec: a constructed Laplacian module applies its
stored kernel to a batch. -/
def Laplacian.forward (l : Laplacian) (b : Batch) : Except String Batch :=
  direct_conv2d BorderMode.reflect l.kernel b

/-- Decide whether a batch has rank-4 shape `(n, c, h, w)`: `n` channel
lists, each holding `c` images of `h` rows of length `w`. -/
def hasShape (b : Batch) (n c h w : ℕ) : Bool :=
  b.length == n &&
    b.all fun ch => ch.length == c &&
      ch.all fun img => img.length == h &&
        img.all fun row => row.length == w

/-- Python version-tuple comparison `a < b`, lexicographic on
(major, minor, micro), as used by `sys.version_info < (3, 6, 0)`. -/
def versionLt (a b : ℕ × ℕ × ℕ) : Bool :=
  Nat.blt a.1 b.1 ||
    (Nat.beq a.1 b.1 &&
      (Nat.blt a.2.1 b.2.1 ||
        (Nat.beq a.2.1 b.2.1 && Nat.blt a.2.2 b.2.2)))

/-- The submodules imported by `kornia/__init__.py`, in source order. -/
def kornia_submodules : List String :=
  ["version", "color", "contrib", "feature", "filters", "geometry", "losses",
   "utils"]

/-- `import kornia` as written in `kornia/__init__.py`: the interpreter
version is checked against (3, 6, 0) before any submodule import; on an
older interpreter a RuntimeError is raised and nothing is loaded, otherwise
all submodules are loaded. -/
def kornia_import (pyVersion : ℕ × ℕ × ℕ) : Except String (List String) :=
  if versionLt pyVersion (3, 6, 0) then
    Except.error "RuntimeError: Kornia requires Python 3.6.0 or later"
  else
    Except.ok kornia_submodules

/-- The names exported by `kornia/losses/__init__.py`. -/
def kornia_losses_exports : List String :=
  ["SSIM", "ssim", "DiceLoss", "dice_loss", "TverskyLoss", "tversky_loss",
   "FocalLoss", "focal_loss", "InverseDepthSmoothnessLoss",
   "inverse_depth_smoothness_loss"]

/-- The names the top-level `kornia/__init__.py` re-exports from
`kornia.losses`. -/
def kornia_top_level_losses_reexports : List String :=
  ["ssim", "dice_loss", "tversky_loss", "inverse_depth_smoothness_loss"]

/-- every name the top-level `kornia/__init__.py` binds explicitly: the
version string, the submodule names, and the functions listed in its
explicit import blocks.  The wildcard import from `kornia.geometry` (whose
source is not shown) contributes only geometry names and no loss
functions. -/
def kornia_top_level_exports : List String :=
  ["__version__", "color", "contrib", "feature", "filters", "geometry",
   "losses", "utils",
   "rgb_to_grayscale", "bgr_to_rgb", "rgb_to_bgr", "rgb_to_hsv", "hsv_to_rgb",
   "normalize",
   "spatial_soft_argmax2d", "extract_tensor_patches", "max_blur_pool2d",
   "non_maxima_suppression2d", "corner_harris",
   "get_gaussian_kernel", "get_gaussian_kernel2d", "get_laplacian_kernel",
   "get_laplacian_kernel2d", "gaussian_blur", "laplacian", "sobel",
   "spatial_gradient", "box_blur", "median_blur",
   "ssim", "dice_loss", "tversky_loss", "inverse_depth_smoothness_loss",
   "one_hot", "create_meshgrid", "tensor_to_image", "image_to_tensor"]

lemma list_range_map_sum {M : Type} [AddCommMonoid M] (f : ℕ → M) (n : ℕ) :
    ((List.range n).map f).sum = ∑ i in Finset.range n, f i := by
  induction n with
  | zero => simp
  | succ m ih =>
      rw [List.range_succ, List.map_append, List.sum_append,
        Finset.sum_range_succ, ih]
      simp

lemma sum_map_div (l : List ℝ) (s : ℝ) :
    (l.map fun c => c / s).sum = l.sum / s := by
  induction l with
  | nil => simp
  | cons a t ih => simp [ih, add_div]

lemma sum_map_mul_const_right (l : List ℝ) (r : ℝ) :
    (l.map fun a => a * r).sum = l.sum * r := by
  induction l with
  | nil => simp
  | cons a t ih => simp [ih, add_mul]

lemma sum_map_mul_const_left (l : List ℝ) (r : ℝ) :
    (l.map fun a => r * a).sum = r * l.sum := by
  induction l with
  | nil => simp
  | cons a t ih => simp [ih, mul_add]

lemma getD_map_range {α : Type} (n : ℕ) (f : ℕ → α) (d : α) (i : ℕ)
    (h : i < n) : (((List.range n).map f).getD i d) = f i := by
  rw [List.getD_eq_getElem?_getD, List.getElem?_map, List.getElem?_range h]
  rfl

lemma gaussian_coeffs_sum_pos (size : ℕ) (sigma : ℝ) (h : 0 < size) :
    0 < (gaussian_coeffs size sigma).sum := by
  apply List.sum_pos
  · intro x hx
    simp only [gaussian_coeffs, List.mem_map] at hx
    obtain ⟨y, _, rfl⟩ := hx
    exact Real.exp_pos _
  · intro hnil
    have hlen : (gaussian_coeffs size sigma).length = size := by
      rw [gaussian_coeffs, List.length_map, List.length_range]
    rw [hnil] at hlen
    simp at hlen
    omega

lemma get_gaussian_kernel_ok (size : ℕ) (sigma : ℝ)
    (h1 : 0 < size) (h2 : size % 2 = 1) (h3 : 0 < sigma) :
    get_gaussian_kernel size sigma =
      Except.ok ((gaussian_coeffs size sigma).map fun c =>
        c / (gaussian_coeffs size sigma).sum) := by
  rw [get_gaussian_kernel, if_pos ⟨h1, h2, h3⟩]

lemma gaussian_kernel_sum_one (size : ℕ) (sigma : ℝ) (h1 : 0 < size) :
    ((gaussian_coeffs size sigma).map fun c =>
      c / (gaussian_coeffs size sigma).sum).sum = 1 := by
  rw [sum_map_div]
  exact div_self (gaussian_coeffs_sum_pos size sigma h1).ne'

lemma outer_product_sum (kx ky : List ℝ) :
    ((kx.map fun a => ky.map fun b => a * b).map List.sum).sum =
      kx.sum * ky.sum := by
  rw [List.map_map]
  have h : (List.sum ∘ fun a => ky.map fun b => a * b) =
      fun a => a * ky.sum := by
    funext a
    simp only [Function.comp]
    exact sum_map_mul_const_left ky a
  rw [h, sum_map_mul_const_right]

/-- C1: for every positive odd window size and positive sigma, the 1-D
Gaussian kernel sums to 1, and for every pair of positive odd sizes and
positive sigmas the 2-D Gaussian kernel also sums to 1. -/
theorem gaussian_kernels_sum_to_one (size : ℕ) (sigma : ℝ)
    (ksize : ℕ × ℕ) (sigmas : ℝ × ℝ)
    (h1 : 0 < size) (h2 : size % 2 = 1) (h3 : 0 < sigma)
    (g1 : 0 < ksize.1) (g2 : ksize.1 % 2 = 1) (g3 : 0 < sigmas.1)
    (g4 : 0 < ksize.2) (g5 : ksize.2 % 2 = 1) (g6 : 0 < sigmas.2) :
    (∃ k, get_gaussian_kernel size sigma = Except.ok k ∧ k.sum = 1) ∧
    (∃ k2, get_gaussian_kernel2d ksize sigmas = Except.ok k2 ∧
      (k2.map List.sum).sum = 1) := by
  constructor
  · exact ⟨_, get_gaussian_kernel_ok size sigma h1 h2 h3,
      gaussian_kernel_sum_one size sigma h1⟩
  · refine ⟨((gaussian_coeffs ksize.1 sigmas.1).map fun c =>
        c / (gaussian_coeffs ksize.1 sigmas.1).sum).map fun a =>
          ((gaussian_coeffs ksize.2 sigmas.2).map fun c =>
            c / (gaussian_coeffs ksize.2 sigmas.2).sum).map fun b => a * b,
        ?_, ?_⟩
    · rw [get_gaussian_kernel2d,
        get_gaussian_kernel_ok ksize.1 sigmas.1 g1 g2 g3,
        get_gaussian_kernel_ok ksize.2 sigmas.2 g4 g5 g6]
      rfl
    · rw [outer_product_sum, gaussian_kernel_sum_one ksize.1 sigmas.1 g1,
        gaussian_kernel_sum_one ksize.2 sigmas.2 g4, mul_one]

theorem gaussian_kernels_sum_to_one_witness :
    0 < 5 ∧ 5 % 2 = 1 ∧ 0 < (1 : ℝ) ∧
      ((∃ k, get_gaussian_kernel 5 1 = Except.ok k ∧ k.sum = 1) ∧
       (∃ k2, get_gaussian_kernel2d (5, 3) (1, 1) = Except.ok k2 ∧
         (k2.map List.sum).sum = 1)) :=
  ⟨by norm_num, by norm_num, by norm_num,
    gaussian_kernels_sum_to_one 5 1 (5, 3) (1, 1) (by norm_num) (by norm_num)
      (by norm_num) (by norm_num) (by norm_num) (by norm_num) (by norm_num)
      (by norm_num) (by norm_num)⟩

lemma kernelCenter_lt (size : ℕ) (h : 0 < size) : kernelCenter size < size := by
  unfold kernelCenter
  omega

lemma laplacian1d_sum (size : ℕ) (h1 : 0 < size) :
    ((List.range size).map fun (x : ℕ) =>
      if x = kernelCenter size then 1 - (size : ℚ) else 1).sum = 0 := by
  rw [list_range_map_sum]
  have hc : kernelCenter size ∈ Finset.range size :=
    Finset.mem_range.2 (kernelCenter_lt size h1)
  have hsplit : ∀ x : ℕ,
      (if x = kernelCenter size then 1 - (size : ℚ) else 1) =
        1 + (if x = kernelCenter size then -(size : ℚ) else 0) := by
    intro x
    by_cases hx : x = kernelCenter size <;> simp [hx] <;> ring
  simp_rw [hsplit]
  rw [Finset.sum_add_distrib, Finset.sum_const,
    Finset.sum_ite_eq' (Finset.range size) (kernelCenter size)
      (fun _ => -(size : ℚ)), if_pos hc]
  simp

lemma laplacian2d_sum (size : ℕ) (h1 : 0 < size) :
    (((List.range size).map fun (i : ℕ) =>
      (List.range size).map fun (j : ℕ) =>
      if i = kernelCenter size ∧ j = kernelCenter size then
        1 - (size : ℚ) * (size : ℚ)
      else 1).map List.sum).sum = 0 := by
  rw [List.map_map]
  have hrow : (List.sum ∘ fun (i : ℕ) => (List.range size).map fun (j : ℕ) =>
      if i = kernelCenter size ∧ j = kernelCenter size then
        1 - (size : ℚ) * (size : ℚ)
      else 1) =
      fun (i : ℕ) => ∑ j in Finset.range size,
        (if i = kernelCenter size ∧ j = kernelCenter size then
          1 - (size : ℚ) * (size : ℚ)
        else 1) := by
    funext i
    simp only [Function.comp]
    rw [list_range_map_sum]
  rw [hrow, list_range_map_sum]
  have hc : kernelCenter size ∈ Finset.range size :=
    Finset.mem_range.2 (kernelCenter_lt size h1)
  have hsplit : ∀ i j : ℕ,
      (if i = kernelCenter size ∧ j = kernelCenter size then
        1 - (size : ℚ) * (size : ℚ)
      else 1) =
        1 + (if j = kernelCenter size then
          (if i = kernelCenter size then -((size : ℚ) * (size : ℚ)) else 0)
        else 0) := by
    intro i j
    by_cases hi : i = kernelCenter size <;>
      by_cases hj : j = kernelCenter size <;> simp [hi, hj] <;> ring
  simp_rw [hsplit]
  simp_rw [Finset.sum_add_distrib, Finset.sum_const, Finset.card_range,
    Finset.sum_ite_eq' (Finset.range size) (kernelCenter size), if_pos hc]
  simp only [smul_eq_mul, nsmul_eq_mul, mul_one]
  rw [Finset.sum_ite_eq', if_pos hc]
  ring

/-- C2: for every positive odd size, the 1-D and 2-D Laplacian kernels each
sum to 0. -/
theorem laplacian_kernels_sum_to_zero (size : ℕ)
    (h1 : 0 < size) (h2 : size % 2 = 1) :
    (∃ k, get_laplacian_kernel size = Except.ok k ∧ k.sum = 0) ∧
    (∃ k2, get_laplacian_kernel2d size = Except.ok k2 ∧
      (k2.map List.sum).sum = 0) := by
  constructor
  · refine ⟨_, ?_, laplacian1d_sum size h1⟩
    rw [get_laplacian_kernel, if_pos ⟨h1, h2⟩]
  · refine ⟨_, ?_, laplacian2d_sum size h1⟩
    rw [get_laplacian_kernel2d, if_pos ⟨h1, h2⟩]

theorem laplacian_kernels_sum_to_zero_witness :
    0 < 5 ∧ 5 % 2 = 1 ∧
      ((∃ k, get_laplacian_kernel 5 = Except.ok k ∧ k.sum = 0) ∧
       (∃ k2, get_laplacian_kernel2d 5 = Except.ok k2 ∧
         (k2.map List.sum).sum = 0)) :=
  ⟨by decide, by decide,
    laplacian_kernels_sum_to_zero 5 (by decide) (by decide)⟩

/-- C3: for every positive odd size, the 2-D Laplacian kernel is a
size-by-size grid whose center coefficient is `-(size*size - 1)` and whose
every other coefficient is 1. -/
theorem laplacian_kernel2d_entry_values (size : ℕ)
    (h1 : 0 < size) (h2 : size % 2 = 1) :
    ∃ k2, get_laplacian_kernel2d size = Except.ok k2 ∧
      k2.length = size ∧ (∀ row ∈ k2, row.length = size) ∧
      ∀ i, i < size → ∀ j, j < size →
        (k2.getD i []).getD j 0 =
          if i = (size - 1) / 2 ∧ j = (size - 1) / 2 then
            -((size : ℚ) * (size : ℚ) - 1)
          else 1 := by
  refine ⟨(List.range size).map fun (i : ℕ) =>
      (List.range size).map fun (j : ℕ) =>
      if i = kernelCenter size ∧ j = kernelCenter size then
        1 - (size : ℚ) * (size : ℚ)
      else 1, ?_, ?_, ?_, ?_⟩
  · rw [get_laplacian_kernel2d, if_pos ⟨h1, h2⟩]
  · rw [List.length_map, List.length_range]
  · intro row hrow
    rw [List.mem_map] at hrow
    obtain ⟨i, _, rfl⟩ := hrow
    rw [List.length_map, List.length_range]
  · intro i hi j hj
    rw [getD_map_range size _ [] i hi, getD_map_range size _ 0 j hj]
    simp only [kernelCenter]
    by_cases hcond : i = (size - 1) / 2 ∧ j = (size - 1) / 2
    · rw [if_pos hcond, if_pos hcond]
      ring
    · rw [if_neg hcond, if_neg hcond]

theorem laplacian_kernel2d_entry_values_witness :
    0 < 7 ∧ 7 % 2 = 1 ∧
      (∃ k2, get_laplacian_kernel2d 7 = Except.ok k2 ∧
        k2.length = 7 ∧ (∀ row ∈ k2, row.length = 7) ∧
        ∀ i, i < 7 → ∀ j, j < 7 →
          (k2.getD i []).getD j 0 =
            if i = (7 - 1) / 2 ∧ j = (7 - 1) / 2 then
              -((7 : ℚ) * (7 : ℚ) - 1)
            else 1) ∧
      -((7 : ℚ) * (7 : ℚ) - 1) = -48 :=
  ⟨by decide, by decide,
    laplacian_kernel2d_entry_values 7 (by decide) (by decide), by norm_num⟩

/-- C4: for every positive odd size and positive sigma, the 1-D Gaussian
kernel has exactly `size` coefficients and its `x`-th coefficient is
`exp (-(x - (size-1)/2)^2 / (2*sigma^2))` divided by the sum of those
unnormalized values, the center index being integer floor division. -/
theorem gaussian_kernel_coefficient_values (size : ℕ) (sigma : ℝ)
    (h1 : 0 < size) (h2 : size % 2 = 1) (h3 : 0 < sigma) :
    ∃ k, get_gaussian_kernel size sigma = Except.ok k ∧ k.length = size ∧
      ∀ x, x < size →
        k.getD x 0 =
          Real.exp (-(((x : ℝ) - (((size - 1) / 2 : ℕ) : ℝ)) ^ 2) /
              (2 * sigma ^ 2)) /
            ((List.range size).map fun (y : ℕ) =>
              Real.exp (-(((y : ℝ) - (((size - 1) / 2 : ℕ) : ℝ)) ^ 2) /
                (2 * sigma ^ 2))).sum := by
  refine ⟨_, get_gaussian_kernel_ok size sigma h1 h2 h3, ?_, ?_⟩
  · rw [List.length_map, gaussian_coeffs, List.length_map, List.length_range]
  · intro x hx
    have hmap : ((gaussian_coeffs size sigma).map fun c =>
        c / (gaussian_coeffs size sigma).sum) =
        (List.range size).map fun (y : ℕ) =>
          Real.exp (-(((y : ℝ) - (kernelCenter size : ℝ)) ^ 2) /
              (2 * sigma ^ 2)) / (gaussian_coeffs size sigma).sum := by
      rw [gaussian_coeffs, List.map_map]
      rfl
    rw [hmap, getD_map_range size _ 0 x hx]
    rfl

theorem gaussian_kernel_coefficient_values_witness :
    0 < 5 ∧ 5 % 2 = 1 ∧ 0 < (2 : ℝ) ∧
      (∃ k, get_gaussian_kernel 5 2 = Except.ok k ∧ k.length = 5 ∧
        ∀ x, x < 5 →
          k.getD x 0 =
            Real.exp (-(((x : ℝ) - (((5 - 1) / 2 : ℕ) : ℝ)) ^ 2) /
                (2 * (2 : ℝ) ^ 2)) /
              ((List.range 5).map fun (y : ℕ) =>
                Real.exp (-(((y : ℝ) - (((5 - 1) / 2 : ℕ) : ℝ)) ^ 2) /
                  (2 * (2 : ℝ) ^ 2))).sum) :=
  ⟨by decide, by decide, by norm_num,
    gaussian_kernel_coefficient_values 5 2 (by decide) (by decide)
      (by norm_num)⟩

/-- C6: `get_gaussian_kernel` fails with InvalidArgument exactly when the
size is zero, the size is even, or the sigma is not positive; for every
positive odd size and positive sigma it returns a kernel. -/
theorem gaussian_kernel_error_conditions (size : ℕ) (sigma : ℝ) :
    (get_gaussian_kernel size sigma = Except.error "InvalidArgument" ↔
      size = 0 ∨ size % 2 = 0 ∨ sigma ≤ 0) ∧
    ((∃ k, get_gaussian_kernel size sigma = Except.ok k) ↔
      0 < size ∧ size % 2 = 1 ∧ 0 < sigma) := by
  by_cases h : 0 < size ∧ size % 2 = 1 ∧ 0 < sigma
  · obtain ⟨ha, hb, hc⟩ := h
    constructor
    · rw [get_gaussian_kernel, if_pos ⟨ha, hb, hc⟩]
      constructor
      · intro hcontra
        exact absurd hcontra (by simp)
      · rintro (h0 | h0 | h0)
        · omega
        · omega
        · exact absurd hc (not_lt.2 h0)
    · rw [get_gaussian_kernel, if_pos ⟨ha, hb, hc⟩]
      exact ⟨fun _ => ⟨ha, hb, hc⟩, fun _ => ⟨_, rfl⟩⟩
  · constructor
    · rw [get_gaussian_kernel, if_neg h]
      constructor
      · intro _
        by_contra hbad
        push_neg at hbad
        obtain ⟨hs0, hs1, hs2⟩ := hbad
        exact h ⟨by omega, by omega, hs2⟩
      · intro _
        rfl
    · rw [get_gaussian_kernel, if_neg h]
      constructor
      · rintro ⟨k, hk⟩
        exact absurd hk (by simp)
      · intro hc
        exact absurd hc h

/-- C8: an ahead-of-time traced invocation of `gaussian_blur` with fixed
kernel parameters produces output identical to the eagerly evaluated module
invocation with the same parameters on the same input, and to the
functional invocation. -/
theorem scripted_matches_eager (b : Batch) (ksize : ℕ × ℕ) (sigma : ℝ × ℝ) :
    gaussian_blur_scripted ksize sigma b =
      (GaussianBlur.create ksize sigma).bind
        (fun g => GaussianBlur.forward g b) ∧
    gaussian_blur_scripted ksize sigma b = gaussian_blur b ksize sigma := by
  rcases hx : get_gaussian_kernel ksize.1 sigma.1 with e | kx <;>
    rcases hy : get_gaussian_kernel ksize.2 sigma.2 with e2 | ky <;>
    simp only [gaussian_blur_scripted, GaussianBlur.create,
      GaussianBlur.forward, gaussian_blur, hx, hy] <;>
    exact ⟨rfl, rfl⟩

/-- C9: importing the kornia package on an interpreter version older than
3.6.0 (lexicographically) raises RuntimeError and loads no submodule; on
3.6.0 or later it loads the submodules without that error. -/
theorem kornia_import_version_gate (v : ℕ × ℕ × ℕ) :
    (kornia_import v =
        Except.error "RuntimeError: Kornia requires Python 3.6.0 or later" ↔
      v.1 < 3 ∨ (v.1 = 3 ∧ (v.2.1 < 6 ∨ (v.2.1 = 6 ∧ v.2.2 < 0)))) ∧
    (kornia_import v = Except.ok kornia_submodules ↔
      ¬(v.1 < 3 ∨ (v.1 = 3 ∧ (v.2.1 < 6 ∨ (v.2.1 = 6 ∧ v.2.2 < 0))))) := by
  have hlt : versionLt v (3, 6, 0) = true ↔
      v.1 < 3 ∨ (v.1 = 3 ∧ (v.2.1 < 6 ∨ (v.2.1 = 6 ∧ v.2.2 < 0))) := by
    simp [versionLt]
  rw [kornia_import]
  by_cases h : versionLt v (3, 6, 0) = true
  · have hp := hlt.mp h
    rw [if_pos h]
    constructor
    · exact ⟨fun _ => hp, fun _ => rfl⟩
    · constructor
      · intro hcon
        exact absurd hcon (by simp)
      · intro hcon
        exact absurd hp hcon
  · have hn := hlt.not.mp h
    rw [if_neg h]
    constructor
    · constructor
      · intro hcon
        exact absurd hcon (by simp)
      · intro hr
        exact absurd hr hn
    · exact ⟨fun _ => hn, fun _ => rfl⟩

/-- C10: `kornia.losses` exports focal_loss and FocalLoss, the top level
re-exports exactly ssim, dice_loss, tversky_loss and
inverse_depth_smoothness_loss from losses, and focal_loss is not a
top-level kornia name. -/
theorem focal_loss_visibility :
    "focal_loss" ∈ kornia_losses_exports ∧
    "FocalLoss" ∈ kornia_losses_exports ∧
    kornia_top_level_losses_reexports =
      ["ssim", "dice_loss", "tversky_loss",
        "inverse_depth_smoothness_loss"] ∧
    (∀ n ∈ kornia_top_level_losses_reexports, n ∈ kornia_losses_exports) ∧
    "focal_loss" ∉ kornia_top_level_losses_reexports ∧
    "focal_loss" ∉ kornia_top_level_exports := by
  decide

lemma hasShape_iff (b : Batch) (n c h w : ℕ) :
    hasShape b n c h w = true ↔
      (b.length = n ∧ ∀ ch ∈ b, ch.length = c ∧
        ∀ img ∈ ch, img.length = h ∧ ∀ row ∈ img, row.length = w) := by
  simp [hasShape, List.all_eq_true]

lemma headD_length_of_all {α : Type} (l : List (List α)) (w : ℕ)
    (hall : ∀ x ∈ l, x.length = w) (hne : l ≠ []) :
    (l.headD []).length = w := by
  cases l with
  | nil => exact absurd rfl hne
  | cons a t => exact hall a (List.mem_cons_self a t)

lemma conv1d_length (mode : BorderMode) (k row : List ℝ) :
    (conv1d mode k row).length = row.length := by
  rw [conv1d, List.length_map, List.length_range]

lemma convWidth_shape (mode : BorderMode) (k : List ℝ) (img : Image)
    (h w : ℕ) (hlen : img.length = h)
    (hrows : ∀ row ∈ img, row.length = w) :
    (convWidth mode k img).length = h ∧
      ∀ row ∈ convWidth mode k img, row.length = w := by
  constructor
  · rw [convWidth, List.length_map, hlen]
  · intro row hr
    simp only [convWidth, List.mem_map] at hr
    obtain ⟨r0, hr0, rfl⟩ := hr
    rw [conv1d_length]
    exact hrows r0 hr0

lemma convHeight_shape (mode : BorderMode) (k : List ℝ) (img : Image)
    (h w : ℕ) (hlen : img.length = h)
    (hrows : ∀ row ∈ img, row.length = w) (hh : 0 < h) :
    (convHeight mode k img).length = h ∧
      ∀ row ∈ convHeight mode k img, row.length = w := by
  have hne : img ≠ [] := by
    intro hcon
    rw [hcon, List.length_nil] at hlen
    omega
  have hhead : (img.headD []).length = w := headD_length_of_all img w hrows hne
  constructor
  · rw [convHeight, List.length_map, List.length_range, hlen]
  · intro row hr
    simp only [convHeight, List.mem_map] at hr
    obtain ⟨i, hi, rfl⟩ := hr
    rw [List.length_map, List.length_range, hhead]

lemma filter2d_shape (mode : BorderMode) (k : List (List ℝ)) (img : Image)
    (h w : ℕ) (hlen : img.length = h)
    (hrows : ∀ row ∈ img, row.length = w) (hh : 0 < h) :
    (filter2d mode k img).length = h ∧
      ∀ row ∈ filter2d mode k img, row.length = w := by
  have hne : img ≠ [] := by
    intro hcon
    rw [hcon, List.length_nil] at hlen
    omega
  have hhead : (img.headD []).length = w := headD_length_of_all img w hrows hne
  constructor
  · rw [filter2d, List.length_map, List.length_range, hlen]
  · intro row hr
    simp only [filter2d, List.mem_map] at hr
    obtain ⟨i, hi, rfl⟩ := hr
    rw [List.length_map, List.length_range, hhead]

lemma batch_dims (b : Batch) (n c h w : ℕ)
    (hb : hasShape b n c h w = true) (hn : 0 < n) (hc : 0 < c) (hh : 0 < h) :
    imageHeight b = h ∧ imageWidth b = w := by
  rw [hasShape_iff] at hb
  obtain ⟨hbl, hball⟩ := hb
  cases b with
  | nil =>
      rw [List.length_nil] at hbl
      exact absurd hn (by omega)
  | cons ch rest =>
      obtain ⟨hchl, hcall⟩ := hball ch (List.mem_cons_self ch rest)
      cases ch with
      | nil =>
          rw [List.length_nil] at hchl
          exact absurd hc (by omega)
      | cons img rest2 =>
          obtain ⟨himgl, hrowall⟩ := hcall img (List.mem_cons_self img rest2)
          have hine : img ≠ [] := by
            intro hcon
            rw [hcon, List.length_nil] at himgl
            omega
          constructor
          · simp only [imageHeight, List.headD_cons]
            exact himgl
          · simp only [imageWidth, List.headD_cons]
            exact headD_length_of_all img w hrowall hine

lemma separable_conv2d_shape (mode : BorderMode) (kx ky : List ℝ)
    (b : Batch) (n c h w : ℕ)
    (hb : hasShape b n c h w = true) (hn : 0 < n) (hc : 0 < c) (hh : 0 < h)
    (hkx : kx.length ≤ w) (hky : ky.length ≤ h) :
    ∃ out, separable_conv2d mode kx ky b = Except.ok out ∧
      hasShape out n c h w = true := by
  obtain ⟨hH, hW⟩ := batch_dims b n c h w hb hn hc hh
  rw [separable_conv2d,
    if_pos ⟨by rw [hW]; exact hkx, by rw [hH]; exact hky⟩]
  refine ⟨_, rfl, ?_⟩
  rw [hasShape_iff] at hb ⊢
  obtain ⟨hbl, hball⟩ := hb
  constructor
  · rw [List.length_map]
    exact hbl
  · intro chm hchm
    simp only [List.mem_map] at hchm
    obtain ⟨ch, hch, rfl⟩ := hchm
    obtain ⟨hchl, hcall⟩ := hball ch hch
    constructor
    · rw [List.length_map]
      exact hchl
    · intro imgm himgm
      simp only [List.mem_map] at himgm
      obtain ⟨img, himg, rfl⟩ := himgm
      obtain ⟨himgl, hrowall⟩ := hcall img himg
      have hcw := convWidth_shape mode kx img h w himgl hrowall
      exact convHeight_shape mode ky _ h w hcw.1 hcw.2 hh

lemma direct_conv2d_shape (mode : BorderMode) (k2 : List (List ℝ))
    (b : Batch) (n c h w : ℕ)
    (hb : hasShape b n c h w = true) (hn : 0 < n) (hc : 0 < c) (hh : 0 < h)
    (hk2h : k2.length ≤ h) (hk2w : (k2.headD []).length ≤ w) :
    ∃ out, direct_conv2d mode k2 b = Except.ok out ∧
      hasShape out n c h w = true := by
  obtain ⟨hH, hW⟩ := batch_dims b n c h w hb hn hc hh
  rw [direct_conv2d,
    if_pos ⟨by rw [hH]; exact hk2h, by rw [hW]; exact hk2w⟩]
  refine ⟨_, rfl, ?_⟩
  rw [hasShape_iff] at hb ⊢
  obtain ⟨hbl, hball⟩ := hb
  constructor
  · rw [List.length_map]
    exact hbl
  · intro chm hchm
    simp only [List.mem_map] at hchm
    obtain ⟨ch, hch, rfl⟩ := hchm
    obtain ⟨hchl, hcall⟩ := hball ch hch
    constructor
    · rw [List.length_map]
      exact hchl
    · intro imgm himgm
      simp only [List.mem_map] at himgm
      obtain ⟨img, himg, rfl⟩ := himgm
      obtain ⟨himgl, hrowall⟩ := hcall img himg
      exact filter2d_shape mode k2 img h w himgl hrowall hh

lemma gaussian_kernel_length (size : ℕ) (sigma : ℝ) :
    ((gaussian_coeffs size sigma).map fun c =>
      c / (gaussian_coeffs size sigma).sum).length = size := by
  rw [List.length_map, gaussian_coeffs, List.length_map, List.length_range]

lemma get_laplacian_kernel2d_ok (size : ℕ)
    (h1 : 0 < size) (h2 : size % 2 = 1) :
    get_laplacian_kernel2d size =
      Except.ok ((List.range size).map fun (i : ℕ) =>
        (List.range size).map fun (j : ℕ) =>
        if i = kernelCenter size ∧ j = kernelCenter size then
          1 - (size : ℚ) * (size : ℚ)
        else 1) := by
  rw [get_laplacian_kernel2d, if_pos ⟨h1, h2⟩]

lemma headD_map_range {α : Type} (n : ℕ) (f : ℕ → α) (d : α) (h : 0 < n) :
    ((List.range n).map f).headD d = f 0 := by
  cases n with
  | zero => exact absurd h (by omega)
  | succ m =>
      rw [List.range_succ_eq_map]
      rfl

lemma ratCastKernel2d_length (K : List (List ℚ)) :
    (ratCastKernel2d K).length = K.length := by
  rw [ratCastKernel2d, List.length_map]

lemma ratCastKernel2d_headD_length (K : List (List ℚ)) :
    ((ratCastKernel2d K).headD []).length = (K.headD []).length := by
  cases K with
  | nil => rfl
  | cons r t =>
      simp only [ratCastKernel2d, List.map_cons, List.headD_cons,
        List.length_map]

lemma laplacian2d_kernel_dims (size : ℕ)
    (h1 : 0 < size) (h2 : size % 2 = 1) :
    ∃ K, get_laplacian_kernel2d size = Except.ok K ∧
      (ratCastKernel2d K).length = size ∧
      ((ratCastKernel2d K).headD []).length = size := by
  refine ⟨_, get_laplacian_kernel2d_ok size h1 h2, ?_, ?_⟩
  · rw [ratCastKernel2d_length, List.length_map, List.length_range]
  · rw [ratCastKernel2d_headD_length, headD_map_range size _ [] h1,
      List.length_map, List.length_range]

/-- C5: for every rank-4 batch whose spatial dimensions are at least the
kernel size, separable convolution with any kernels, direct 2-D convolution
with any kernel, `gaussian_blur` and `laplacian` all return a batch of
shape identical to the input batch's shape. -/
theorem filters_preserve_shape
    (mode : BorderMode) (kx ky : List ℝ) (k2 : List (List ℝ)) (b : Batch)
    (n c h w : ℕ) (ksize : ℕ × ℕ) (sigma : ℝ × ℝ) (lapSize : ℕ)
    (hb : hasShape b n c h w = true)
    (hn : 0 < n) (hc : 0 < c) (hh : 0 < h)
    (hkx : kx.length ≤ w) (hky : ky.length ≤ h)
    (hk2h : k2.length ≤ h) (hk2w : (k2.headD []).length ≤ w)
    (hg1 : 0 < ksize.1) (hg2 : ksize.1 % 2 = 1) (hg3 : 0 < sigma.1)
    (hg4 : 0 < ksize.2) (hg5 : ksize.2 % 2 = 1) (hg6 : 0 < sigma.2)
    (hgw : ksize.1 ≤ w) (hgh : ksize.2 ≤ h)
    (hl1 : 0 < lapSize) (hl2 : lapSize % 2 = 1)
    (hlh : lapSize ≤ h) (hlw : lapSize ≤ w) :
    (∃ out, separable_conv2d mode kx ky b = Except.ok out ∧
      hasShape out n c h w = true) ∧
    (∃ out, direct_conv2d mode k2 b = Except.ok out ∧
      hasShape out n c h w = true) ∧
    (∃ out, gaussian_blur b ksize sigma = Except.ok out ∧
      hasShape out n c h w = true) ∧
    (∃ out, laplacian b lapSize = Except.ok out ∧
      hasShape out n c h w = true) := by
  refine ⟨separable_conv2d_shape mode kx ky b n c h w hb hn hc hh hkx hky,
    direct_conv2d_shape mode k2 b n c h w hb hn hc hh hk2h hk2w, ?_, ?_⟩
  · have h1 := get_gaussian_kernel_ok ksize.1 sigma.1 hg1 hg2 hg3
    have h2 := get_gaussian_kernel_ok ksize.2 sigma.2 hg4 hg5 hg6
    obtain ⟨out, hout, hshape⟩ := separable_conv2d_shape BorderMode.reflect
      ((gaussian_coeffs ksize.1 sigma.1).map fun cc =>
        cc / (gaussian_coeffs ksize.1 sigma.1).sum)
      ((gaussian_coeffs ksize.2 sigma.2).map fun cc =>
        cc / (gaussian_coeffs ksize.2 sigma.2).sum)
      b n c h w hb hn hc hh
      (by rw [gaussian_kernel_length]; exact hgw)
      (by rw [gaussian_kernel_length]; exact hgh)
    refine ⟨out, ?_, hshape⟩
    rw [gaussian_blur]
    simp only [h1, h2]
    exact hout
  · obtain ⟨K, hK, hKl, hKh⟩ := laplacian2d_kernel_dims lapSize hl1 hl2
    obtain ⟨out, hout, hshape⟩ := direct_conv2d_shape BorderMode.reflect
      (ratCastKernel2d K) b n c h w hb hn hc hh
      (by rw [hKl]; exact hlh) (by rw [hKh]; exact hlw)
    refine ⟨out, ?_, hshape⟩
    rw [laplacian]
    simp only [hK]
    exact hout

theorem filters_preserve_shape_witness :
    (∃ out, separable_conv2d BorderMode.reflect (List.replicate 5 (0 : ℝ))
        (List.replicate 5 (0 : ℝ))
        (List.replicate 2 (List.replicate 3 (List.replicate 11
          (List.replicate 7 (0 : ℝ))))) = Except.ok out ∧
      hasShape out 2 3 11 7 = true) ∧
    (∃ out, direct_conv2d BorderMode.reflect
        (List.replicate 3 (List.replicate 3 (0 : ℝ)))
        (List.replicate 2 (List.replicate 3 (List.replicate 11
          (List.replicate 7 (0 : ℝ))))) = Except.ok out ∧
      hasShape out 2 3 11 7 = true) ∧
    (∃ out, gaussian_blur
        (List.replicate 2 (List.replicate 3 (List.replicate 11
          (List.replicate 7 (0 : ℝ))))) (5, 5) (1, 1) = Except.ok out ∧
      hasShape out 2 3 11 7 = true) ∧
    (∃ out, laplacian
        (List.replicate 2 (List.replicate 3 (List.replicate 11
          (List.replicate 7 (0 : ℝ))))) 5 = Except.ok out ∧
      hasShape out 2 3 11 7 = true) :=
  filters_preserve_shape BorderMode.reflect (List.replicate 5 (0 : ℝ))
    (List.replicate 5 (0 : ℝ)) (List.replicate 3 (List.replicate 3 (0 : ℝ)))
    (List.replicate 2 (List.replicate 3 (List.replicate 11
      (List.replicate 7 (0 : ℝ))))) 2 3 11 7 (5, 5) (1, 1) 5
    (by rfl) (by decide) (by decide) (by decide)
    (by decide) (by decide) (by decide) (by decide)
    (by decide) (by decide) (by norm_num)
    (by decide) (by decide) (by norm_num)
    (by decide) (by decide)
    (by decide) (by decide) (by decide) (by decide)

/-- C7: separable convolution and the filter modules are pure: the output
is a function of the inputs alone, so two calls on equal input batches
yield equal outputs, and a module's stored kernels never change between
calls. -/
theorem filters_are_pure (mode : BorderMode) (kx ky : List ℝ)
    (g : GaussianBlur) (l : Laplacian) (b1 b2 : Batch) (h : b1 = b2) :
    separable_conv2d mode kx ky b1 = separable_conv2d mode kx ky b2 ∧
    GaussianBlur.forward g b1 = GaussianBlur.forward g b2 ∧
    Laplacian.forward l b1 = Laplacian.forward l b2 := by
  subst h
  exact ⟨rfl, rfl, rfl⟩

theorem filters_are_pure_witness :
    ([] : Batch) = [] ∧
      (separable_conv2d BorderMode.reflect [] [] [] =
        separable_conv2d BorderMode.reflect [] [] [] ∧
      GaussianBlur.forward ⟨[], []⟩ [] = GaussianBlur.forward ⟨[], []⟩ [] ∧
      Laplacian.forward ⟨[]⟩ [] = Laplacian.forward ⟨[]⟩ []) :=
  ⟨rfl, filters_are_pure BorderMode.reflect [] [] ⟨[], []⟩ ⟨[]⟩ [] [] rfl⟩
